import Mathlib

/-!
Shallow embedding of the blockchain node in `src/main.rs`
(block model, SHA-256 digest, proof-of-work mining, block/chain
validation and longest-chain selection), together with proofs of the
specified properties.

Conventions of the embedding:
* machine integers (`u64`, `i64`) become `Nat` / `Int`; 32-bit words in
  SHA-256 are `Nat` reduced with `% 2^32`;
* Rust code that can `panic!` / `.expect(...)` is modelled with `Option`,
  `none` standing for an abort;
* the unbounded mining loop is modelled with an explicit fuel argument,
  `none` standing for "did not terminate within the fuel".
-/

set_option maxRecDepth 8000

/-! ### SHA-256 (the `crypto_hash` digest used by `calculate_hash`) -/

def w32 (n : Nat) : Nat := n % 4294967296

def rotr (k x : Nat) : Nat := w32 ((x >>> k) ||| (x <<< (32 - k)))

def shaCh (x y z : Nat) : Nat := (x &&& y) ^^^ ((x ^^^ 4294967295) &&& z)

def shaMaj (x y z : Nat) : Nat := (x &&& y) ^^^ (x &&& z) ^^^ (y &&& z)

def bigSigma0 (x : Nat) : Nat := rotr 2 x ^^^ rotr 13 x ^^^ rotr 22 x

def bigSigma1 (x : Nat) : Nat := rotr 6 x ^^^ rotr 11 x ^^^ rotr 25 x

def smallSigma0 (x : Nat) : Nat := rotr 7 x ^^^ rotr 18 x ^^^ (x >>> 3)

def smallSigma1 (x : Nat) : Nat := rotr 17 x ^^^ rotr 19 x ^^^ (x >>> 10)

def K256 : List Nat :=
  [1116352408, 1899447441, 3049323471, 3921009573, 961987163,
   1508970993, 2453635748, 2870763221, 3624381080, 310598401,
   607225278, 1426881987, 1925078388, 2162078206, 2614888103,
   3248222580, 3835390401, 4022224774, 264347078, 604807628,
   770255983, 1249150122, 1555081692, 1996064986, 2554220882,
   2821834349, 2952996808, 3210313671, 3336571891, 3584528711,
   113926993, 338241895, 666307205, 773529912, 1294757372,
   1396182291, 1695183700, 1986661051, 2177026350, 2456956037,
   2730485921, 2820302411, 3259730800, 3345764771, 3516065817,
   3600352804, 4094571909, 275423344, 430227734, 506948616,
   659060556, 883997877, 958139571, 1322822218, 1537002063,
   1747873779, 1955562222, 2024104815, 2227730452, 2361852424,
   2428436474, 2756734187, 3204031479, 3329325298]

def H256 : List Nat :=
  [1779033703, 3144134277, 1013904242, 2773480762, 1359893119,
   2600822924, 528734635, 1541459225]

def padMessage (msg : List Nat) : List Nat :=
  let L := msg.length
  let k := (120 - ((L + 1) % 64)) % 64
  let bitLen := 8 * L
  msg ++ 128 :: List.replicate k 0 ++
    [(bitLen >>> 56) % 256, (bitLen >>> 48) % 256, (bitLen >>> 40) % 256, (bitLen >>> 32) % 256,
     (bitLen >>> 24) % 256, (bitLen >>> 16) % 256, (bitLen >>> 8) % 256, bitLen % 256]

def bytesToWords : List Nat → List Nat
  | a :: b :: c :: d :: rest => (a * 16777216 + b * 65536 + c * 256 + d) :: bytesToWords rest
  | _ => []

def toBlocks : List Nat → List (List Nat)
  | w0 :: w1 :: w2 :: w3 :: w4 :: w5 :: w6 :: w7 ::
    w8 :: w9 :: w10 :: w11 :: w12 :: w13 :: w14 :: w15 :: rest =>
      [w0, w1, w2, w3, w4, w5, w6, w7, w8, w9, w10, w11, w12, w13, w14, w15] :: toBlocks rest
  | _ => []

def scheduleStep (ws : List Nat) : List Nat :=
  ws ++ [w32 (smallSigma1 (ws.getD (ws.length - 2) 0) + ws.getD (ws.length - 7) 0 +
              smallSigma0 (ws.getD (ws.length - 15) 0) + ws.getD (ws.length - 16) 0)]

def scheduleW (block : List Nat) : List Nat :=
  (List.range 48).foldl (fun ws _ => scheduleStep ws) block

def roundStep (st : List Nat) (kw : Nat × Nat) : List Nat :=
  match st with
  | [a, b, c, d, e, f, g, h] =>
    let t1 := w32 (h + bigSigma1 e + shaCh e f g + kw.1 + kw.2)
    let t2 := w32 (bigSigma0 a + shaMaj a b c)
    [w32 (t1 + t2), a, b, c, w32 (d + t1), e, f, g]
  | _ => st

def compressBlock (hv : List Nat) (block : List Nat) : List Nat :=
  let st := (K256.zip (scheduleW block)).foldl roundStep hv
  (hv.zip st).map (fun p => w32 (p.1 + p.2))

def sha256 (msg : List Nat) : List Nat :=
  let hf := (toBlocks (bytesToWords (padMessage msg))).foldl compressBlock H256
  hf.foldr (fun w acc => (w >>> 24) % 256 :: (w >>> 16) % 256 :: (w >>> 8) % 256 :: w % 256 :: acc) []

/-! ### Hex encoding/decoding (the `hex` crate's `encode` / `decode`) -/

def hexChar (n : Nat) : Char := if n < 10 then Char.ofNat (48 + n) else Char.ofNat (87 + n)

def hexEncode (bytes : List Nat) : String :=
  String.mk (bytes.foldr (fun b acc => hexChar (b / 16) :: hexChar (b % 16) :: acc) [])

def hexVal (c : Char) : Option Nat :=
  if 48 ≤ c.toNat ∧ c.toNat ≤ 57 then some (c.toNat - 48)
  else if 97 ≤ c.toNat ∧ c.toNat ≤ 102 then some (c.toNat - 87)
  else if 65 ≤ c.toNat ∧ c.toNat ≤ 70 then some (c.toNat - 55)
  else none

def hexDecodeChars : List Char → Option (List Nat)
  | [] => some []
  | [_] => none
  | c1 :: c2 :: rest =>
    match hexVal c1, hexVal c2, hexDecodeChars rest with
    | some hi, some lo, some bs => some ((16 * hi + lo) :: bs)
    | _, _, _ => none

def hexDecode (s : String) : Option (List Nat) := hexDecodeChars s.data

/-! ### Unpadded binary rendering (`hash_to_binary_representation`) -/

def binDigitsAux : Nat → Nat → List Char
  | 0, _ => []
  | fuel + 1, n => if n = 0 then [] else binDigitsAux fuel (n / 2) ++ [if n % 2 = 1 then '1' else '0']

def binDigits (n : Nat) : List Char := binDigitsAux n n

def natToBinStr (n : Nat) : String := if n = 0 then "0" else String.mk (binDigits n)

def hash_to_binary_representation (hash : List Nat) : String :=
  hash.foldl (fun res c => res ++ natToBinStr c) ""

def DIFFICULTY_PREFIX : String := "00"

/-- Rust's `str::starts_with`, expressed on the character lists (the
built-in `String.startsWith` is byte-based and does not evaluate inside
the kernel). -/
def strStartsWith (s pre : String) : Bool := pre.data.isPrefixOf s.data

/-! ### The canonical JSON encoding used by `calculate_hash`
(`serde_json::json!` with sorted object keys, compact `to_string`). -/

def u4hex (n : Nat) : String :=
  String.mk [hexChar ((n >>> 12) % 16), hexChar ((n >>> 8) % 16), hexChar ((n >>> 4) % 16), hexChar (n % 16)]

def jsonEscapeChar (c : Char) : String :=
  if c = '"' then "\\\""
  else if c = '\\' then "\\\\"
  else if c.toNat = 8 then "\\b"
  else if c.toNat = 9 then "\\t"
  else if c.toNat = 10 then "\\n"
  else if c.toNat = 12 then "\\f"
  else if c.toNat = 13 then "\\r"
  else if c.toNat < 32 then "\\u" ++ u4hex c.toNat
  else String.singleton c

def jsonStr (s : String) : String :=
  "\"" ++ s.data.foldl (fun acc c => acc ++ jsonEscapeChar c) "" ++ "\""

def blockJson (id : Nat) (timestamp : Int) (previous_hash data : String) (nonce : Nat) : String :=
  "\x7b\"data\":" ++ jsonStr data ++ ",\"id\":" ++ toString id ++ ",\"nonce\":" ++ toString nonce ++
  ",\"previous_hash\":" ++ jsonStr previous_hash ++ ",\"timestamp\":" ++ toString timestamp ++ "\x7d"

def utf8Encode (c : Char) : List Nat :=
  let n := c.toNat
  if n < 128 then [n]
  else if n < 2048 then [192 ||| (n >>> 6), 128 ||| (n &&& 63)]
  else if n < 65536 then [224 ||| (n >>> 12), 128 ||| ((n >>> 6) &&& 63), 128 ||| (n &&& 63)]
  else [240 ||| (n >>> 18), 128 ||| ((n >>> 12) &&& 63), 128 ||| ((n >>> 6) &&& 63), 128 ||| (n &&& 63)]

def strBytes (s : String) : List Nat := s.data.foldr (fun c acc => utf8Encode c ++ acc) []

/-- `calculate_hash` of `src/main.rs`: SHA-256 over the canonical JSON
encoding of the block fields. -/
def calculate_hash (id : Nat) (timestamp : Int) (previous_hash data : String) (nonce : Nat) : List Nat :=
  sha256 (strBytes (blockJson id timestamp previous_hash data nonce))

/-! ### Mining (`mine_block`) -/

/-- The acceptance test of the mining loop: the unpadded binary rendering
of the digest starts with the difficulty target. -/
def goodNonce (id : Nat) (timestamp : Int) (previous_hash data : String) (nonce : Nat) : Bool :=
  strStartsWith (hash_to_binary_representation (calculate_hash id timestamp previous_hash data nonce))
    DIFFICULTY_PREFIX

/-- The body of `mine_block`'s `loop`, with an explicit fuel bound standing
for the number of iterations still allowed; `none` means the loop did not
find a nonce within the fuel. -/
def mineAux (id : Nat) (timestamp : Int) (previous_hash data : String) : Nat → Nat → Option (Nat × String)
  | 0, _ => none
  | fuel + 1, nonce =>
    if goodNonce id timestamp previous_hash data nonce then
      some (nonce, hexEncode (calculate_hash id timestamp previous_hash data nonce))
    else
      mineAux id timestamp previous_hash data fuel (nonce + 1)

/-- `mine_block` of `src/main.rs`: iterate the nonce from 0 upward until the
digest's binary rendering starts with the difficulty target. -/
def mine_block (id : Nat) (timestamp : Int) (previous_hash data : String) (fuel : Nat) :
    Option (Nat × String) :=
  mineAux id timestamp previous_hash data fuel 0

/-! ### Block and App (`struct Block`, `struct App`) -/

structure Block where
  id : Nat
  hash : String
  previous_hash : String
  timestamp : Int
  data : String
  nonce : Nat
deriving DecidableEq, Repr

/-- `Block::new`: take the clock value `now`, mine, and assemble the block.
The clock read (`Utc::now()`) is passed in as the `now` argument; `none`
stands for a mining loop that has not terminated within the fuel. -/
def Block.new (id : Nat) (previous_hash data : String) (now : Int) (fuel : Nat) : Option Block :=
  match mine_block id now previous_hash data fuel with
  | none => none
  | some (nonce, hash) =>
    some { id := id, hash := hash, timestamp := now, previous_hash := previous_hash,
           data := data, nonce := nonce }

structure App where
  node_id : String
  nodes : List String
  blocks : List Block
deriving DecidableEq, Repr

/-- The genesis block built by `App::genesis`; its `timestamp` is the clock
value at construction time, every other field is a hardcoded constant. -/
def genesisBlock (now : Int) : Block :=
  { id := 0
    timestamp := now
    previous_hash := "genesis"
    data := "genesis!"
    nonce := 2836
    hash := "0000f816a87f806bb0073dcf026a64fb40c946b5abee2573702828694d5b4c43" }

/-- `App::genesis`: the constructor of the node state. The random
`Uuid::new_v4()` and the clock read are passed in as arguments. -/
def App.genesis (node_id : String) (now : Int) : App :=
  { node_id := node_id, nodes := [], blocks := [genesisBlock now] }

/-- `App::generate_new_block`: mine a block with payload
`"new block data!"` on top of the current tip and push it; `none` stands
for the `expect` panic on an empty chain or for an unfinished mining loop. -/
def generate_new_block (app : App) (now : Int) (fuel : Nat) : Option App :=
  match app.blocks.getLast? with
  | none => none
  | some latest_block =>
    match Block.new (latest_block.id + 1) latest_block.hash "new block data!" now fuel with
    | none => none
    | some block => some { app with blocks := app.blocks ++ [block] }

/-! ### Validation and consensus (`is_block_valid`, `is_chain_valid`, `choose_chain`) -/

/-- `App::is_block_valid`: the candidate is checked against the tip of the
app's own chain. `none` stands for a panic: the `expect` on an empty chain,
or the `expect` on a hash field that is not valid hex. -/
def is_block_valid (app : App) (block : Block) : Option Bool :=
  match app.blocks.getLast? with
  | none => none
  | some latest_block =>
    if block.previous_hash ≠ latest_block.hash then some false
    else
      match hexDecode block.hash with
      | none => none
      | some bytes =>
        if !(strStartsWith (hash_to_binary_representation bytes) DIFFICULTY_PREFIX) then some false
        else if block.id ≠ latest_block.id + 1 then some false
        else if hexEncode (calculate_hash block.id block.timestamp block.previous_hash block.data
            block.nonce) ≠ block.hash then some false
        else some true

/-- `chain.iter().all(|b| self.is_block_valid(b))` with short-circuit on the
first `false` and panic propagation. -/
def allBlocksValid (app : App) : List Block → Option Bool
  | [] => some true
  | b :: rest =>
    match is_block_valid app b with
    | none => none
    | some false => some false
    | some true => allBlocksValid app rest

/-- `App::is_chain_valid`: every block of the argument chain is validated
against the tip of the app's own chain. -/
def is_chain_valid (app : App) (chain : List Block) : Option Bool :=
  allBlocksValid app chain

/-- `App::choose_chain`: validate both chains eagerly, then pick.  `none`
stands for a panic (the explicit one when both are invalid, or one
propagated out of `is_chain_valid`). -/
def choose_chain (app : App) (loc rem : List Block) : Option (List Block) :=
  match is_chain_valid app loc, is_chain_valid app rem with
  | some is_local_valid, some is_remote_valid =>
    if is_local_valid && is_remote_valid then
      some (if rem.length ≤ loc.length then loc else rem)
    else if is_remote_valid && !is_local_valid then some rem
    else if !is_remote_valid && is_local_valid then some loc
    else none
  | _, _ => none

/-! ### Concrete data for witnesses: a block mined (offline) on top of the
genesis block, whose nonce 0 already meets the difficulty target. -/

def b1 : Block :=
  { id := 1
    timestamp := 1665427510
    previous_hash := "0000f816a87f806bb0073dcf026a64fb40c946b5abee2573702828694d5b4c43"
    data := "new block data!"
    nonce := 0
    hash := "0000847e8a3cfaa550ce03594168a20ea0123e9a598ed285a02fb90b82181281" }

/-- A candidate whose `hash` field is not valid hex but whose
`previous_hash` matches the genesis tip, so validation reaches the hex
decode. -/
def zzBlock : Block :=
  { id := 1
    timestamp := 0
    previous_hash := "0000f816a87f806bb0073dcf026a64fb40c946b5abee2573702828694d5b4c43"
    data := ""
    nonce := 0
    hash := "zz" }

/-- The node state after `App::genesis` (clock 0, id `"n"`) followed by
`generate_new_block` at clock 1665427510. -/
def appAfter : App := { node_id := "n", nodes := [], blocks := [genesisBlock 0, b1] }

/-- The value of a big-endian binary digit string (used to state that the
per-byte rendering really is the byte's value in binary). -/
def charsVal (l : List Char) : Nat := l.foldl (fun a c => 2 * a + (if c = '1' then 1 else 0)) 0

/-! ### Sanity checks of the executable embedding -/

example : hexEncode (sha256 (strBytes "abc")) =
    "ba7816bf8f01cfea414140de5dae2223b00361a396177a9cb410ff61f20015ad" := by decide

example : hexEncode (sha256 (strBytes "")) =
    "e3b0c44298fc1c149afbf4c8996fb92427ae41e4649b934ca495991b7852b855" := by decide

example : goodNonce 1 1665427510 b1.previous_hash "new block data!" 0 = true := by decide

example : mine_block 1 1665427510 b1.previous_hash "new block data!" 1 = some (0, b1.hash) := by decide

example : is_block_valid (App.genesis "n" 0) b1 = some true := by decide

/-! ### Helper lemmas about the mining loop -/

lemma mineAux_zero (id : Nat) (ts : Int) (prev data : String) (nonce : Nat) :
    mineAux id ts prev data 0 nonce = none := rfl

lemma mineAux_succ (id : Nat) (ts : Int) (prev data : String) (f nonce : Nat) :
    mineAux id ts prev data (f + 1) nonce =
      if goodNonce id ts prev data nonce then
        some (nonce, hexEncode (calculate_hash id ts prev data nonce))
      else mineAux id ts prev data f (nonce + 1) := rfl

lemma mineAux_sound (id : Nat) (ts : Int) (prev data : String) :
    ∀ fuel start m s, mineAux id ts prev data fuel start = some (m, s) →
      goodNonce id ts prev data m = true ∧
      s = hexEncode (calculate_hash id ts prev data m) ∧ start ≤ m := by
  intro fuel
  induction fuel with
  | zero =>
    intro start m s h
    rw [mineAux_zero] at h
    exact Option.noConfusion h
  | succ f ih =>
    intro start m s h
    by_cases hg : goodNonce id ts prev data start = true
    · rw [mineAux_succ, if_pos hg] at h
      have h2 := Option.some.inj h
      rw [Prod.mk.injEq] at h2
      obtain ⟨ha, hb⟩ := h2
      subst ha
      subst hb
      exact ⟨hg, rfl, Nat.le_refl _⟩
    · rw [mineAux_succ, if_neg hg] at h
      obtain ⟨ha, hb, hc⟩ := ih (start + 1) m s h
      exact ⟨ha, hb, by omega⟩

lemma mineAux_least (id : Nat) (ts : Int) (prev data : String) :
    ∀ fuel start m s, mineAux id ts prev data fuel start = some (m, s) →
      ∀ k, start ≤ k → k < m → goodNonce id ts prev data k = false := by
  intro fuel
  induction fuel with
  | zero =>
    intro start m s h
    rw [mineAux_zero] at h
    exact Option.noConfusion h
  | succ f ih =>
    intro start m s h k hk1 hk2
    by_cases hg : goodNonce id ts prev data start = true
    · rw [mineAux_succ, if_pos hg] at h
      have h2 := Option.some.inj h
      rw [Prod.mk.injEq] at h2
      obtain ⟨ha, hb⟩ := h2
      omega
    · rw [mineAux_succ, if_neg hg] at h
      rcases Nat.eq_or_lt_of_le hk1 with heq | hlt
      · subst heq
        rwa [Bool.not_eq_true] at hg
      · exact ih (start + 1) m s h k hlt hk2

lemma mineAux_complete (id : Nat) (ts : Int) (prev data : String) :
    ∀ fuel start, (∃ n, start ≤ n ∧ n < start + fuel ∧ goodNonce id ts prev data n = true) →
      ∃ m s, mineAux id ts prev data fuel start = some (m, s) := by
  intro fuel
  induction fuel with
  | zero => intro start ⟨n, h1, h2, _⟩; omega
  | succ f ih =>
    intro start ⟨n, h1, h2, h3⟩
    by_cases hg : goodNonce id ts prev data start = true
    · exact ⟨start, _, by rw [mineAux_succ, if_pos hg]⟩
    · have hne : n ≠ start := fun he => hg (he ▸ h3)
      obtain ⟨m, s, hm⟩ := ih (start + 1) ⟨n, by omega, by omega, h3⟩
      exact ⟨m, s, by rw [mineAux_succ, if_neg hg]; exact hm⟩

/-! ### Helper lemmas about hex encoding and digest bytes -/

lemma hexVal_hexChar : ∀ n < 16, hexVal (hexChar n) = some n := by decide

lemma hexDecode_hexEncode : ∀ bs : List Nat, (∀ b ∈ bs, b < 256) →
    hexDecode (hexEncode bs) = some bs := by
  intro bs
  induction bs with
  | nil => intro _; rfl
  | cons b rest ih =>
    intro h
    have hb : b < 256 := h b (by simp)
    have hrest : ∀ x ∈ rest, x < 256 := fun x hx => h x (by simp [hx])
    have h1 : b / 16 < 16 := by omega
    have h2 : b % 16 < 16 := by omega
    have ih' : hexDecodeChars (hexEncode rest).data = some rest := ih hrest
    have step : hexDecode (hexEncode (b :: rest)) =
        match hexVal (hexChar (b / 16)), hexVal (hexChar (b % 16)),
            hexDecodeChars (hexEncode rest).data with
        | some hi, some lo, some bs => some ((16 * hi + lo) :: bs)
        | _, _, _ => none := rfl
    rw [step, hexVal_hexChar _ h1, hexVal_hexChar _ h2, ih']
    show some ((16 * (b / 16) + b % 16) :: rest) = some (b :: rest)
    have : 16 * (b / 16) + b % 16 = b := by omega
    rw [this]

lemma mem_foldr_bytes_lt (l : List Nat) (acc : List Nat) (hacc : ∀ b ∈ acc, b < 256) :
    ∀ b ∈ l.foldr
        (fun w acc => (w >>> 24) % 256 :: (w >>> 16) % 256 :: (w >>> 8) % 256 :: w % 256 :: acc)
        acc, b < 256 := by
  induction l with
  | nil => exact hacc
  | cons w rest ih =>
    intro b hb
    simp only [List.foldr_cons, List.mem_cons] at hb
    rcases hb with h | h | h | h | h
    · omega
    · omega
    · omega
    · omega
    · exact ih b h

lemma sha256_bytes_lt (msg : List Nat) : ∀ b ∈ sha256 msg, b < 256 := by
  intro b hb
  exact mem_foldr_bytes_lt _ [] (by simp) b hb

lemma calculate_hash_bytes_lt (id : Nat) (ts : Int) (prev data : String) (nonce : Nat) :
    ∀ b ∈ calculate_hash id ts prev data nonce, b < 256 :=
  sha256_bytes_lt _

/-! ### Helper lemmas about the unpadded binary rendering -/

lemma binDigitsAux_fuel : ∀ f1 f2 n, n ≤ f1 → n ≤ f2 → binDigitsAux f1 n = binDigitsAux f2 n := by
  intro f1
  induction f1 with
  | zero =>
    intro f2 n h1 _
    have : n = 0 := by omega
    subst this
    cases f2 <;> simp [binDigitsAux]
  | succ f ih =>
    intro f2 n h1 h2
    cases f2 with
    | zero =>
      have : n = 0 := by omega
      subst this
      simp [binDigitsAux]
    | succ f2' =>
      by_cases hn : n = 0
      · subst hn; simp [binDigitsAux]
      · have hlt : n / 2 < n := Nat.div_lt_self (Nat.pos_of_ne_zero hn) (by decide)
        rw [binDigitsAux, binDigitsAux, if_neg hn, if_neg hn, ih f2' (n / 2) (by omega) (by omega)]

lemma binDigits_eq (n : Nat) (h : n ≠ 0) :
    binDigits n = binDigits (n / 2) ++ [if n % 2 = 1 then '1' else '0'] := by
  have hlt : n / 2 < n := Nat.div_lt_self (Nat.pos_of_ne_zero h) (by decide)
  cases n with
  | zero => exact absurd rfl h
  | succ m =>
    show binDigitsAux (m + 1) (m + 1) = _
    rw [binDigitsAux, if_neg h]
    rw [binDigitsAux_fuel m ((m + 1) / 2) ((m + 1) / 2) (by omega) (by omega)]
    rfl

lemma binDigits_head (n : Nat) (h : 0 < n) : (binDigits n).head? = some '1' := by
  induction n using Nat.strong_induction_on with
  | _ n ih =>
    by_cases h2 : n / 2 = 0
    · have : n = 1 := by omega
      subst this
      rfl
    · rw [binDigits_eq n (by omega)]
      have hh := ih (n / 2) (by omega) (by omega)
      cases hbd : binDigits (n / 2) with
      | nil => rw [hbd] at hh; simp at hh
      | cons a t => rw [hbd] at hh; simp at hh; simp [hh]

lemma charsVal_append_bit (l : List Char) (c : Char) :
    charsVal (l ++ [c]) = 2 * charsVal l + (if c = '1' then 1 else 0) := by
  simp [charsVal, List.foldl_append]

lemma charsVal_binDigits (n : Nat) : charsVal (binDigits n) = n := by
  induction n using Nat.strong_induction_on with
  | _ n ih =>
    by_cases hn : n = 0
    · subst hn; rfl
    · have hlt : n / 2 < n := Nat.div_lt_self (Nat.pos_of_ne_zero hn) (by decide)
      rw [binDigits_eq n hn, charsVal_append_bit, ih (n / 2) hlt]
      rcases Nat.mod_two_eq_zero_or_one n with h | h <;> simp [h] <;> omega

/-! ### Helper lemmas about validation and consensus -/

lemma is_block_valid_tip (app : App) (b p : Block) (hp : app.blocks.getLast? = some p) :
    is_block_valid app b =
      (if b.previous_hash ≠ p.hash then some false
       else match hexDecode b.hash with
         | none => none
         | some bytes =>
           if !strStartsWith (hash_to_binary_representation bytes) DIFFICULTY_PREFIX then some false
           else if b.id ≠ p.id + 1 then some false
           else if hexEncode (calculate_hash b.id b.timestamp b.previous_hash b.data b.nonce) ≠ b.hash
           then some false
           else some true) := by
  unfold is_block_valid
  rw [hp]

lemma is_block_valid_true_iff (app : App) (b p : Block) (hp : app.blocks.getLast? = some p) :
    is_block_valid app b = some true ↔
      b.previous_hash = p.hash ∧ b.id = p.id + 1 ∧
      hexEncode (calculate_hash b.id b.timestamp b.previous_hash b.data b.nonce) = b.hash ∧
      ∃ bytes, hexDecode b.hash = some bytes ∧
        strStartsWith (hash_to_binary_representation bytes) DIFFICULTY_PREFIX = true := by
  rw [is_block_valid_tip app b p hp]
  by_cases h1 : b.previous_hash = p.hash
  · rw [if_neg (not_not_intro h1)]
    cases hdec : hexDecode b.hash with
    | none => simp [h1, hdec]
    | some bytes =>
      cases hss : strStartsWith (hash_to_binary_representation bytes) DIFFICULTY_PREFIX with
      | false => simp [h1, hdec, hss]
      | true =>
        by_cases h3 : b.id = p.id + 1
        · by_cases h4 : hexEncode (calculate_hash b.id b.timestamp b.previous_hash b.data
              b.nonce) = b.hash
          · simp [h1, h3, h4, hdec, hss]
          · simp [h1, h3, h4, hdec, hss]
        · simp [h1, h3, hdec, hss]
  · rw [if_pos h1]
    simp [h1]

lemma allBlocksValid_eq_true (app : App) (chain : List Block) :
    allBlocksValid app chain = some true ↔ ∀ b ∈ chain, is_block_valid app b = some true := by
  induction chain with
  | nil => simp [allBlocksValid]
  | cons b rest ih =>
    cases hb : is_block_valid app b with
    | none => simp [allBlocksValid, hb]
    | some v =>
      cases v with
      | false => simp [allBlocksValid, hb]
      | true => simp [allBlocksValid, hb, ih]

lemma choose_chain_tt (app : App) (loc rem : List Block)
    (hl : is_chain_valid app loc = some true) (hr : is_chain_valid app rem = some true) :
    choose_chain app loc rem = some (if rem.length ≤ loc.length then loc else rem) := by
  unfold choose_chain
  rw [hl, hr]
  rfl

lemma choose_chain_tf (app : App) (loc rem : List Block)
    (hl : is_chain_valid app loc = some true) (hr : is_chain_valid app rem = some false) :
    choose_chain app loc rem = some loc := by
  unfold choose_chain
  rw [hl, hr]
  rfl

lemma choose_chain_ft (app : App) (loc rem : List Block)
    (hl : is_chain_valid app loc = some false) (hr : is_chain_valid app rem = some true) :
    choose_chain app loc rem = some rem := by
  unfold choose_chain
  rw [hl, hr]
  rfl

lemma choose_chain_ff (app : App) (loc rem : List Block)
    (hl : is_chain_valid app loc = some false) (hr : is_chain_valid app rem = some false) :
    choose_chain app loc rem = none := by
  unfold choose_chain
  rw [hl, hr]
  rfl

lemma generate_new_block_eval (app : App) (now : Int) (fuel : Nat) (tip : Block)
    (hp : app.blocks.getLast? = some tip) :
    generate_new_block app now fuel =
      match Block.new (tip.id + 1) tip.hash "new block data!" now fuel with
      | none => none
      | some block => some { app with blocks := app.blocks ++ [block] } := by
  unfold generate_new_block
  rw [hp]

/-! ### The claimed properties -/

/-- C1: for a candidate block `b` and a node whose non-empty chain has tip
`p`, `is_block_valid` returns `true` exactly when `b.previous_hash` equals
`p.hash`, `b.id` equals `p.id + 1`, the recomputed digest over `b`'s fields
equals `b.hash`, and the binary expansion of `b.hash` starts with the
difficulty target; if any check fails the result is not `true`. -/
theorem is_block_valid_spec (app : App) (b p : Block) (hp : app.blocks.getLast? = some p) :
    is_block_valid app b = some true ↔
      b.previous_hash = p.hash ∧ b.id = p.id + 1 ∧
      hexEncode (calculate_hash b.id b.timestamp b.previous_hash b.data b.nonce) = b.hash ∧
      ∃ bytes, hexDecode b.hash = some bytes ∧
        strStartsWith (hash_to_binary_representation bytes) DIFFICULTY_PREFIX = true :=
  is_block_valid_true_iff app b p hp

/-- C1, witness: the characterization instantiated at the genesis node and
the concrete mined block `b1`. -/
theorem is_block_valid_spec_witness :
    is_block_valid (App.genesis "n" 0) b1 = some true ↔
      b1.previous_hash = (genesisBlock 0).hash ∧ b1.id = (genesisBlock 0).id + 1 ∧
      hexEncode (calculate_hash b1.id b1.timestamp b1.previous_hash b1.data b1.nonce) = b1.hash ∧
      ∃ bytes, hexDecode b1.hash = some bytes ∧
        strStartsWith (hash_to_binary_representation bytes) DIFFICULTY_PREFIX = true :=
  is_block_valid_spec (App.genesis "n" 0) b1 (genesisBlock 0) rfl

/-- C2, counterexample: `is_chain_valid` accepts the empty chain (the claim
demands rejection), and it validates each block of the argument chain
against the tip of the node's own chain rather than against the block's
predecessor: the chain `[genesis, b1]`, whose only consecutive pair does
satisfy `is_block_valid` (middle conjunct), is rejected by the node that
holds exactly that chain. -/
theorem is_chain_valid_claim_counterexample :
    is_chain_valid (App.genesis "n" 0) [] = some true ∧
    is_block_valid { node_id := "n", nodes := [], blocks := [genesisBlock 0] } b1 = some true ∧
    is_chain_valid { node_id := "n", nodes := [], blocks := [genesisBlock 0, b1] }
      [genesisBlock 0, b1] = some false := by
  refine ⟨rfl, by decide, ?_⟩
  decide

/-- C2, amended: `is_chain_valid` returns `true` iff every block of the
argument chain individually passes `is_block_valid` against the tip of the
node's own current chain (scanning left to right, stopping at the first
failure), and the empty chain yields `true` rather than being rejected. -/
theorem is_chain_valid_amended (app : App) (chain : List Block) :
    (is_chain_valid app chain = some true ↔ ∀ b ∈ chain, is_block_valid app b = some true) ∧
    is_chain_valid app [] = some true :=
  ⟨allBlocksValid_eq_true app chain, rfl⟩

/-- C3: when both chains validate, `choose_chain` returns the remote chain
exactly when it is strictly longer and the local chain otherwise (ties kept
local); when exactly one chain validates, that chain is returned. -/
theorem choose_chain_longest (app : App) (loc rem : List Block) :
    (is_chain_valid app loc = some true → is_chain_valid app rem = some true →
      choose_chain app loc rem = some (if loc.length < rem.length then rem else loc)) ∧
    (is_chain_valid app loc = some true → is_chain_valid app rem = some false →
      choose_chain app loc rem = some loc) ∧
    (is_chain_valid app loc = some false → is_chain_valid app rem = some true →
      choose_chain app loc rem = some rem) := by
  refine ⟨fun hl hr => ?_, fun hl hr => choose_chain_tf app loc rem hl hr,
    fun hl hr => choose_chain_ft app loc rem hl hr⟩
  rw [choose_chain_tt app loc rem hl hr]
  by_cases hlen : rem.length ≤ loc.length
  · rw [if_pos hlen, if_neg (by omega)]
  · rw [if_neg hlen, if_pos (by omega)]

/-- C3, witness: the both-valid branch at the genesis node, local `[b1]`
against the shorter (empty, trivially valid) remote chain: the local chain
is kept. -/
theorem choose_chain_longest_witness :
    choose_chain (App.genesis "n" 0) [b1] [] = some [b1] := by
  have h := (choose_chain_longest (App.genesis "n" 0) [b1] []).1 (by decide) rfl
  simpa using h

/-- C4, counterexample: a pair where the local chain is valid yet
`choose_chain` aborts instead of returning it, because validating the
remote chain panics on a non-hex `hash` field before the both-invalid
check is ever reached. -/
theorem choose_chain_abort_counterexample :
    is_chain_valid (App.genesis "n" 0) [b1] = some true ∧
    choose_chain (App.genesis "n" 0) [b1] [zzBlock] = none := by
  constructor
  · decide
  · decide

/-- C4, amended: when both chain validations complete with boolean results
(no panic inside validation), `choose_chain` signals the fatal condition
exactly when both results are `false`; if at least one is `true` it
returns a chain. -/
theorem choose_chain_fatal_iff (app : App) (loc rem : List Block) (a b : Bool)
    (hl : is_chain_valid app loc = some a) (hr : is_chain_valid app rem = some b) :
    (choose_chain app loc rem = none ↔ a = false ∧ b = false) := by
  cases a <;> cases b
  · rw [choose_chain_ff app loc rem hl hr]; simp
  · rw [choose_chain_ft app loc rem hl hr]; simp
  · rw [choose_chain_tf app loc rem hl hr]; simp
  · rw [choose_chain_tt app loc rem hl hr]; simp

/-- C4, witness: the fatal-iff characterization instantiated at two
(trivially) valid chains: no abort. -/
theorem choose_chain_fatal_iff_witness :
    choose_chain (App.genesis "n" 0) [] [] = none ↔ true = false ∧ true = false :=
  choose_chain_fatal_iff (App.genesis "n" 0) [] [] true true rfl rfl

/-- C5: whenever some nonce satisfies the difficulty test, `mine_block`
(run with enough fuel) returns the least such nonce together with the hex
encoding of the digest recomputed at that nonce, and that digest's binary
rendering starts with the difficulty target. -/
theorem mine_block_finds_least (id : Nat) (ts : Int) (prev data : String) (n : Nat)
    (hn : goodNonce id ts prev data n = true) (fuel : Nat) (hfuel : n < fuel) :
    ∃ m, mine_block id ts prev data fuel =
        some (m, hexEncode (calculate_hash id ts prev data m)) ∧
      goodNonce id ts prev data m = true ∧
      ∀ k, k < m → goodNonce id ts prev data k = false := by
  obtain ⟨m, s, hm⟩ := mineAux_complete id ts prev data fuel 0 ⟨n, Nat.zero_le n, by omega, hn⟩
  obtain ⟨hg, hs, _⟩ := mineAux_sound id ts prev data fuel 0 m s hm
  subst hs
  exact ⟨m, hm, hg, fun k hk =>
    mineAux_least id ts prev data fuel 0 m _ hm k (Nat.zero_le k) hk⟩

/-- C5, witness: mining the concrete scenario block, whose nonce 0 already
meets the difficulty target. -/
theorem mine_block_finds_least_witness :
    ∃ m, mine_block 1 1665427510
        "0000f816a87f806bb0073dcf026a64fb40c946b5abee2573702828694d5b4c43"
        "new block data!" 1 =
        some (m, hexEncode (calculate_hash 1 1665427510
          "0000f816a87f806bb0073dcf026a64fb40c946b5abee2573702828694d5b4c43"
          "new block data!" m)) ∧
      goodNonce 1 1665427510
        "0000f816a87f806bb0073dcf026a64fb40c946b5abee2573702828694d5b4c43"
        "new block data!" m = true ∧
      ∀ k, k < m → goodNonce 1 1665427510
        "0000f816a87f806bb0073dcf026a64fb40c946b5abee2573702828694d5b4c43"
        "new block data!" k = false :=
  mine_block_finds_least 1 1665427510
    "0000f816a87f806bb0073dcf026a64fb40c946b5abee2573702828694d5b4c43"
    "new block data!" 0 (by decide) 1 (by decide)

/-- C6: the binary rendering concatenates, byte after byte in order, the
value of each byte written in binary without zero-padding: appending a
byte appends its rendering, the rendering of a positive byte starts with
`'1'` (never a padding zero), the rendering parses back to the byte's
value, and byte 5 renders as `"101"`, not `"00000101"`. -/
theorem hash_to_binary_representation_unpadded :
    (∀ bytes c, hash_to_binary_representation (bytes ++ [c]) =
        hash_to_binary_representation bytes ++ natToBinStr c) ∧
    (∀ c, 0 < c → (natToBinStr c).data.head? = some '1') ∧
    (∀ c, charsVal (natToBinStr c).data = c) ∧
    natToBinStr 5 = "101" ∧ natToBinStr 5 ≠ "00000101" := by
  refine ⟨?_, ?_, ?_, by decide, by decide⟩
  · intro bytes c
    simp [hash_to_binary_representation, List.foldl_append]
  · intro c hc
    unfold natToBinStr
    rw [if_neg (by omega)]
    exact binDigits_head c hc
  · intro c
    by_cases hc : c = 0
    · subst hc; rfl
    · unfold natToBinStr
      rw [if_neg hc]
      exact charsVal_binDigits c

/-- C7, counterexample: two constructions of the node state at different
clock values produce different genesis blocks (the timestamps differ), so
the genesis block is not a constant equal in every field. -/
theorem genesis_blocks_differ :
    (App.genesis "nodeA" 0).blocks.head? ≠ (App.genesis "nodeB" 1).blocks.head? := by
  decide

/-- C7, amended: any two constructions of the node state agree on every
genesis-block field except the timestamp — `id = 0`,
`previous_hash = "genesis"`, `data = "genesis!"`, the hardcoded nonce 2836
and the hardcoded hash — while the timestamp is the clock value at
construction time. -/
theorem genesis_constant_except_timestamp (node_id : String) (t1 t2 : Int) :
    (App.genesis node_id t1).blocks = [genesisBlock t1] ∧
    (genesisBlock t1).id = 0 ∧ (genesisBlock t1).previous_hash = "genesis" ∧
    (genesisBlock t1).data = "genesis!" ∧ (genesisBlock t1).nonce = 2836 ∧
    (genesisBlock t1).hash =
      "0000f816a87f806bb0073dcf026a64fb40c946b5abee2573702828694d5b4c43" ∧
    (genesisBlock t1).timestamp = t1 ∧
    (genesisBlock t1).id = (genesisBlock t2).id ∧
    (genesisBlock t1).previous_hash = (genesisBlock t2).previous_hash ∧
    (genesisBlock t1).data = (genesisBlock t2).data ∧
    (genesisBlock t1).nonce = (genesisBlock t2).nonce ∧
    (genesisBlock t1).hash = (genesisBlock t2).hash :=
  ⟨rfl, rfl, rfl, rfl, rfl, rfl, rfl, rfl, rfl, rfl, rfl, rfl⟩

/-- C8: a successful `generate_new_block` keeps the node id, the peer list
and every existing block unchanged and in place, and appends exactly one
block whose `id` is the old tip's `id + 1` and whose `previous_hash` is the
old tip's hash. -/
theorem generate_new_block_frame (app : App) (now : Int) (fuel : Nat) (tip : Block)
    (hp : app.blocks.getLast? = some tip) (app' : App)
    (h : generate_new_block app now fuel = some app') :
    app'.node_id = app.node_id ∧ app'.nodes = app.nodes ∧
    app'.blocks.length = app.blocks.length + 1 ∧
    app'.blocks.take app.blocks.length = app.blocks ∧
    ∃ b, app'.blocks = app.blocks ++ [b] ∧ b.id = tip.id + 1 ∧ b.previous_hash = tip.hash := by
  rw [generate_new_block_eval app now fuel tip hp] at h
  cases hbn : Block.new (tip.id + 1) tip.hash "new block data!" now fuel with
  | none =>
    rw [hbn] at h
    exact Option.noConfusion h
  | some b =>
    rw [hbn] at h
    have h2 := Option.some.inj h
    subst h2
    unfold Block.new at hbn
    cases hm : mine_block (tip.id + 1) now tip.hash "new block data!" fuel with
    | none =>
      rw [hm] at hbn
      exact Option.noConfusion hbn
    | some p =>
      obtain ⟨nonce, hsh⟩ := p
      rw [hm] at hbn
      have h3 := Option.some.inj hbn
      subst h3
      refine ⟨rfl, rfl, by simp, List.take_left _ _, ⟨_, rfl, rfl, rfl⟩⟩

/-- C8, witness: the frame property instantiated at the genesis node and
the concrete mining run that produces `appAfter`. -/
theorem generate_new_block_frame_witness :
    appAfter.node_id = (App.genesis "n" 0).node_id ∧
    appAfter.nodes = (App.genesis "n" 0).nodes ∧
    appAfter.blocks.length = (App.genesis "n" 0).blocks.length + 1 ∧
    appAfter.blocks.take (App.genesis "n" 0).blocks.length = (App.genesis "n" 0).blocks ∧
    ∃ b, appAfter.blocks = (App.genesis "n" 0).blocks ++ [b] ∧
      b.id = (genesisBlock 0).id + 1 ∧ b.previous_hash = (genesisBlock 0).hash :=
  generate_new_block_frame (App.genesis "n" 0) 1665427510 1 (genesisBlock 0) rfl appAfter
    (by decide)

/-- C9: starting from a chain holding only the genesis block, a successful
`generate_new_block` (payload `"new block data!"`) appends a block with
`id = 1` whose `previous_hash` is the genesis hash, and that block passes
`is_block_valid` against the one-element genesis chain. -/
theorem scenario_a (node_id : String) (gts now : Int) (fuel : Nat) (app' : App)
    (h : generate_new_block (App.genesis node_id gts) now fuel = some app') :
    ∃ b, app'.blocks = [genesisBlock gts, b] ∧ b.id = 1 ∧
      b.previous_hash = (genesisBlock gts).hash ∧
      is_block_valid (App.genesis node_id gts) b = some true := by
  have hp : (App.genesis node_id gts).blocks.getLast? = some (genesisBlock gts) := rfl
  rw [generate_new_block_eval (App.genesis node_id gts) now fuel (genesisBlock gts) hp] at h
  cases hbn : Block.new ((genesisBlock gts).id + 1) (genesisBlock gts).hash "new block data!"
      now fuel with
  | none =>
    rw [hbn] at h
    exact Option.noConfusion h
  | some b =>
    rw [hbn] at h
    have h2 := Option.some.inj h
    subst h2
    unfold Block.new at hbn
    cases hm : mine_block ((genesisBlock gts).id + 1) now (genesisBlock gts).hash
        "new block data!" fuel with
    | none =>
      rw [hm] at hbn
      exact Option.noConfusion hbn
    | some p =>
      obtain ⟨nonce, hsh⟩ := p
      rw [hm] at hbn
      have h3 := Option.some.inj hbn
      subst h3
      obtain ⟨hg, hs, _⟩ := mineAux_sound ((genesisBlock gts).id + 1) now
        (genesisBlock gts).hash "new block data!" fuel 0 nonce hsh hm
      subst hs
      refine ⟨_, rfl, rfl, rfl, ?_⟩
      rw [is_block_valid_true_iff (App.genesis node_id gts) _ (genesisBlock gts) hp]
      refine ⟨rfl, rfl, rfl, ?_⟩
      refine ⟨calculate_hash ((genesisBlock gts).id + 1) now (genesisBlock gts).hash
        "new block data!" nonce, ?_, hg⟩
      exact hexDecode_hexEncode _ (calculate_hash_bytes_lt _ _ _ _ _)

/-- C9, witness: the scenario at clock values 0 (genesis) and 1665427510
(mining), where nonce 0 already satisfies the difficulty target. -/
theorem scenario_a_witness :
    ∃ b, appAfter.blocks = [genesisBlock 0, b] ∧ b.id = 1 ∧
      b.previous_hash = (genesisBlock 0).hash ∧
      is_block_valid (App.genesis "n" 0) b = some true :=
  scenario_a "n" 0 1665427510 1 appAfter (by decide)

/-- C10, counterexample: a candidate whose `hash` field is not valid hex
makes `is_block_valid` abort (the `expect` panic, modelled as `none`)
rather than return `false`, because its `previous_hash` matches the tip
and validation reaches the hex decode. -/
theorem is_block_valid_abort_counterexample :
    hexDecode zzBlock.hash = none ∧
    is_block_valid (App.genesis "n" 0) zzBlock = none ∧
    ¬ is_block_valid (App.genesis "n" 0) zzBlock = some false := by
  decide

/-- C10, amended: against a node with a non-empty chain, validation of a
candidate whose `previous_hash` differs from the tip's hash returns
`false` before ever decoding; if the `previous_hash` check passes and the
`hash` field is not valid hex, validation aborts; and whenever the `hash`
field decodes, validation never aborts. -/
theorem is_block_valid_abort_behavior (app : App) (block p : Block)
    (hp : app.blocks.getLast? = some p) :
    (block.previous_hash ≠ p.hash → is_block_valid app block = some false) ∧
    (block.previous_hash = p.hash → hexDecode block.hash = none →
      is_block_valid app block = none) ∧
    (∀ bytes, hexDecode block.hash = some bytes → is_block_valid app block ≠ none) := by
  rw [is_block_valid_tip app block p hp]
  refine ⟨fun h1 => ?_, fun h1 hdec => ?_, fun bytes hdec => ?_⟩
  · rw [if_pos h1]
  · rw [if_neg (not_not_intro h1), hdec]
  · by_cases h1 : block.previous_hash = p.hash
    · rw [if_neg (not_not_intro h1), hdec]
      cases hss : strStartsWith (hash_to_binary_representation bytes) DIFFICULTY_PREFIX
      · simp [hss]
      · simp only [hss]
        split_ifs <;> simp
    · rw [if_pos h1]
      simp

/-- C10, witness: the abort characterization instantiated at the genesis
node and the concrete non-hex candidate `zzBlock`. -/
theorem is_block_valid_abort_behavior_witness :
    (zzBlock.previous_hash ≠ (genesisBlock 0).hash →
      is_block_valid (App.genesis "n" 0) zzBlock = some false) ∧
    (zzBlock.previous_hash = (genesisBlock 0).hash → hexDecode zzBlock.hash = none →
      is_block_valid (App.genesis "n" 0) zzBlock = none) ∧
    (∀ bytes, hexDecode zzBlock.hash = some bytes →
      is_block_valid (App.genesis "n" 0) zzBlock ≠ none) :=
  is_block_valid_abort_behavior (App.genesis "n" 0) zzBlock (genesisBlock 0) rfl

/-- C6, witness: the rendering properties instantiated at byte value 5. -/
theorem hash_to_binary_representation_unpadded_witness :
    hash_to_binary_representation [5, 0] = hash_to_binary_representation [5] ++ natToBinStr 0 ∧
    (natToBinStr 5).data.head? = some '1' ∧
    charsVal (natToBinStr 5).data = 5 :=
  ⟨hash_to_binary_representation_unpadded.1 [5] 0,
   hash_to_binary_representation_unpadded.2.1 5 (by decide),
   hash_to_binary_representation_unpadded.2.2.1 5⟩
